import Mathlib

/-!
Shallow embedding of the meta-analysis statistics and forest-plot engine
(`automated_sr/analysis/statistics.py` and `automated_sr/analysis/forest_plot.py`).

Python floats are modelled as real numbers.  Functions that can raise in
Python (empty pooling raises ValueError; the SMD calculator hits a Python
ZeroDivisionError when a scalar division has a zero denominator; the mean
difference calculator likewise when a group size is zero) are modelled as
Option-valued, with `none` standing for the raised error.  All other code
paths are total.  `scipy.stats.norm.cdf` is modelled by the cumulative
distribution function of the standard Gaussian measure.
-/

namespace AutomatedSR

/-- Embeds `EffectMeasure` (statistics.py). -/
inductive EffectMeasure where
  | MD
  | SMD
  | OR
  | RR
deriving DecidableEq

/-- Embeds `PoolingMethod` (statistics.py). -/
inductive PoolingMethod where
  | fixed
  | random
deriving DecidableEq

/-- Embeds the `EffectSize` dataclass (statistics.py). -/
structure EffectSize where
  study_id : ℤ
  study_name : String
  effect : ℝ
  se : ℝ
  ci_lower : ℝ
  ci_upper : ℝ
  weight : Option ℝ := none
  n_total : Option ℤ := none

/-- Embeds the `PooledEffect` dataclass (statistics.py). -/
structure PooledEffect where
  effect : ℝ
  se : ℝ
  ci_lower : ℝ
  ci_upper : ℝ
  z_score : ℝ
  p_value : ℝ
  i_squared : ℝ
  tau_squared : Option ℝ
  q_statistic : ℝ
  df : ℕ
  method : PoolingMethod
  n_studies : ℕ

/-- Models `scipy.stats.norm.cdf`: the standard normal CDF. -/
noncomputable def normCdf (x : ℝ) : ℝ :=
  ProbabilityTheory.cdf (ProbabilityTheory.gaussianReal 0 1) x

/-- The standard error of `calculate_mean_difference`:
`sqrt(sd1^2/n1 + sd2^2/n2)`. -/
noncomputable def seMd (sd1 : ℝ) (n1 : ℤ) (sd2 : ℝ) (n2 : ℤ) : ℝ :=
  Real.sqrt (sd1 ^ 2 / (n1 : ℝ) + sd2 ^ 2 / (n2 : ℝ))

/-- The EffectSize built by `calculate_mean_difference` on its non-raising
path: `md = mean1 - mean2` with 95% CI `md ± 1.96*se`. -/
noncomputable def mdCore (mean1 sd1 : ℝ) (n1 : ℤ) (mean2 sd2 : ℝ)
    (n2 : ℤ) (study_id : ℤ) (study_name : String) : EffectSize :=
  { study_id := study_id
    study_name := study_name
    effect := mean1 - mean2
    se := seMd sd1 n1 sd2 n2
    ci_lower := (mean1 - mean2) - 1.96 * seMd sd1 n1 sd2 n2
    ci_upper := (mean1 - mean2) + 1.96 * seMd sd1 n1 sd2 n2
    n_total := some (n1 + n2) }

/-- Embeds `MetaAnalysis.calculate_mean_difference` (statistics.py lines 78-118).
`none` models the Python ZeroDivisionError raised when `n1` or `n2` is zero
(`sd1**2 / n1`); otherwise the function returns `mdCore`. -/
noncomputable def calculate_mean_difference (mean1 sd1 : ℝ) (n1 : ℤ) (mean2 sd2 : ℝ)
    (n2 : ℤ) (study_id : ℤ) (study_name : String) : Option EffectSize :=
  if n1 = 0 ∨ n2 = 0 then none else
  some (mdCore mean1 sd1 n1 mean2 sd2 n2 study_id study_name)

/-- The pooled standard deviation of `calculate_standardized_mean_difference`:
`sqrt(((n1-1)*sd1^2 + (n2-1)*sd2^2) / (n1+n2-2))`. -/
noncomputable def pooledSd (sd1 : ℝ) (n1 : ℤ) (sd2 : ℝ) (n2 : ℤ) : ℝ :=
  Real.sqrt ((((n1 : ℝ) - 1) * sd1 ^ 2 + ((n2 : ℝ) - 1) * sd2 ^ 2) /
    ((n1 : ℝ) + (n2 : ℝ) - 2))

/-- Cohen's d as computed in `calculate_standardized_mean_difference`:
`d = (mean1 - mean2) / pooled_sd`. -/
noncomputable def cohenD (mean1 sd1 : ℝ) (n1 : ℤ) (mean2 sd2 : ℝ) (n2 : ℤ) : ℝ :=
  (mean1 - mean2) / pooledSd sd1 n1 sd2 n2

/-- Hedges' small-sample correction factor `j = 1 - 3/(4*(n1+n2-2) - 1)`. -/
noncomputable def hedgesJ (n1 n2 : ℤ) : ℝ :=
  1 - 3 / (4 * ((n1 : ℝ) + (n2 : ℝ) - 2) - 1)

/-- The standard error of Hedges' g in `calculate_standardized_mean_difference`:
`sqrt((n1+n2)/(n1*n2) + g^2/(2*(n1+n2)))`. -/
noncomputable def seSmd (mean1 sd1 : ℝ) (n1 : ℤ) (mean2 sd2 : ℝ) (n2 : ℤ) : ℝ :=
  Real.sqrt (((n1 : ℝ) + (n2 : ℝ)) / ((n1 : ℝ) * (n2 : ℝ)) +
    (cohenD mean1 sd1 n1 mean2 sd2 n2 * hedgesJ n1 n2) ^ 2 / (2 * ((n1 : ℝ) + (n2 : ℝ))))

/-- The EffectSize built by `calculate_standardized_mean_difference` on its
non-raising path: `g = d*j` with Hedges' correction, 95% CI `g ± 1.96*se`. -/
noncomputable def smdCore (mean1 sd1 : ℝ) (n1 : ℤ) (mean2 sd2 : ℝ)
    (n2 : ℤ) (study_id : ℤ) (study_name : String) : EffectSize :=
  { study_id := study_id
    study_name := study_name
    effect := cohenD mean1 sd1 n1 mean2 sd2 n2 * hedgesJ n1 n2
    se := seSmd mean1 sd1 n1 mean2 sd2 n2
    ci_lower := cohenD mean1 sd1 n1 mean2 sd2 n2 * hedgesJ n1 n2 -
      1.96 * seSmd mean1 sd1 n1 mean2 sd2 n2
    ci_upper := cohenD mean1 sd1 n1 mean2 sd2 n2 * hedgesJ n1 n2 +
      1.96 * seSmd mean1 sd1 n1 mean2 sd2 n2
    n_total := some (n1 + n2) }

/-- Embeds `MetaAnalysis.calculate_standardized_mean_difference`
(statistics.py lines 120-173).  `none` models the Python ZeroDivisionError:
the pooled-SD expression divides by `n1+n2-2` (raising when `n1+n2 = 2`) and
the SE expression divides by `n1*n2` (raising when `n1*n2 = 0`); otherwise
the function returns `smdCore`. -/
noncomputable def calculate_standardized_mean_difference (mean1 sd1 : ℝ) (n1 : ℤ)
    (mean2 sd2 : ℝ) (n2 : ℤ) (study_id : ℤ) (study_name : String) : Option EffectSize :=
  if n1 + n2 = 2 ∨ n1 * n2 = 0 then none else
  some (smdCore mean1 sd1 n1 mean2 sd2 n2 study_id study_name)

/-- The log odds ratio of `calculate_odds_ratio` after the unconditional 0.5
continuity correction on all four cells. -/
noncomputable def logOddsR (events1 total1 events2 total2 : ℤ) : ℝ :=
  Real.log ((((events1 : ℝ) + 0.5) * (((total2 : ℝ) - (events2 : ℝ)) + 0.5)) /
    ((((total1 : ℝ) - (events1 : ℝ)) + 0.5) * ((events2 : ℝ) + 0.5)))

/-- The log-scale standard error of `calculate_odds_ratio`:
`sqrt(1/a + 1/b + 1/c + 1/d)` over the corrected cells. -/
noncomputable def seOddsR (events1 total1 events2 total2 : ℤ) : ℝ :=
  Real.sqrt (1 / ((events1 : ℝ) + 0.5) + 1 / (((total1 : ℝ) - (events1 : ℝ)) + 0.5) +
    1 / ((events2 : ℝ) + 0.5) + 1 / (((total2 : ℝ) - (events2 : ℝ)) + 0.5))

/-- Embeds `MetaAnalysis.calculate_odds_ratio` (statistics.py lines 175-221):
adds 0.5 to the four cells `a, b, c, d` unconditionally, forms
`log_or = log(a*d/(b*c))`, `se = sqrt(1/a+1/b+1/c+1/d)` and exponentiates the
point estimate and CI bounds back to the natural scale. -/
noncomputable def calculate_odds_ratio (events1 total1 events2 total2 : ℤ)
    (study_id : ℤ) (study_name : String) : EffectSize :=
  { study_id := study_id
    study_name := study_name
    effect := Real.exp (logOddsR events1 total1 events2 total2)
    se := seOddsR events1 total1 events2 total2
    ci_lower := Real.exp (logOddsR events1 total1 events2 total2 -
      1.96 * seOddsR events1 total1 events2 total2)
    ci_upper := Real.exp (logOddsR events1 total1 events2 total2 +
      1.96 * seOddsR events1 total1 events2 total2)
    n_total := some (total1 + total2) }

/-- Corrected event count of one arm in `calculate_risk_ratio`: `events + 0.5`
when `events = 0` or `events = total`, else `events`. -/
noncomputable def rrEvents (events total : ℤ) : ℝ :=
  if events = 0 ∨ events = total then (events : ℝ) + 0.5 else (events : ℝ)

/-- Corrected total of one arm in `calculate_risk_ratio`: `total + 1` when
`events = 0` or `events = total`, else `total`. -/
noncomputable def rrTotal (events total : ℤ) : ℝ :=
  if events = 0 ∨ events = total then (total : ℝ) + 1 else (total : ℝ)

/-- The log risk ratio of `calculate_risk_ratio`: `log(p1/p2)` with
`p_i = e_i/t_i` over the conditionally corrected counts. -/
noncomputable def logRiskR (events1 total1 events2 total2 : ℤ) : ℝ :=
  Real.log ((rrEvents events1 total1 / rrTotal events1 total1) /
    (rrEvents events2 total2 / rrTotal events2 total2))

/-- The log-scale standard error of `calculate_risk_ratio`:
`sqrt((1-p1)/e1 + (1-p2)/e2)`. -/
noncomputable def seRiskR (events1 total1 events2 total2 : ℤ) : ℝ :=
  Real.sqrt ((1 - rrEvents events1 total1 / rrTotal events1 total1) / rrEvents events1 total1 +
    (1 - rrEvents events2 total2 / rrTotal events2 total2) / rrEvents events2 total2)

/-- Embeds `MetaAnalysis.calculate_risk_ratio` (statistics.py lines 223-269):
conditional 0.5/1 continuity correction per arm, `log_rr = log(p1/p2)`,
log-scale SE, and exponentiation back to the natural scale. -/
noncomputable def calculate_risk_ratio (events1 total1 events2 total2 : ℤ)
    (study_id : ℤ) (study_name : String) : EffectSize :=
  { study_id := study_id
    study_name := study_name
    effect := Real.exp (logRiskR events1 total1 events2 total2)
    se := seRiskR events1 total1 events2 total2
    ci_lower := Real.exp (logRiskR events1 total1 events2 total2 -
      1.96 * seRiskR events1 total1 events2 total2)
    ci_upper := Real.exp (logRiskR events1 total1 events2 total2 +
      1.96 * seRiskR events1 total1 events2 total2)
    n_total := some (total1 + total2) }

/-- The per-study working values of `fixed_effects`/`random_effects`:
`ln(effect)` if `effect > 0` else `0` when `log_scale`, else `effect`. -/
noncomputable def effectValues (effects : List EffectSize) (logScale : Bool) : List ℝ :=
  if logScale then
    effects.map (fun e => if 0 < e.effect then Real.log e.effect else 0)
  else
    effects.map (fun e => e.effect)

/-- The working value of a single effect (pointwise form of `effectValues`). -/
noncomputable def workingValue (logScale : Bool) (x : ℝ) : ℝ :=
  if logScale then (if 0 < x then Real.log x else 0) else x

/-- The inverse-variance weights `w_i = 1/se_i^2` of `fixed_effects`. -/
noncomputable def feWeights (effects : List EffectSize) : List ℝ :=
  effects.map (fun e => 1 / e.se ^ 2)

/-- Embeds `total_weight = sum(weights)` in `fixed_effects`. -/
noncomputable def totalFeWeight (effects : List EffectSize) : ℝ :=
  (feWeights effects).sum

/-- The pooled working value of `fixed_effects`:
`sum(w*e for w, e in zip(weights, effect_values)) / total_weight`. -/
noncomputable def fixedPooled (effects : List EffectSize) (logScale : Bool) : ℝ :=
  (List.zipWith (fun w v => w * v) (feWeights effects) (effectValues effects logScale)).sum /
    totalFeWeight effects

/-- The pooled standard error of `fixed_effects`: `sqrt(1/total_weight)`. -/
noncomputable def fixedSe (effects : List EffectSize) : ℝ :=
  Real.sqrt (1 / totalFeWeight effects)

/-- Cochran's Q of `fixed_effects`: `sum(w*(e - pooled)^2 ...)`. -/
noncomputable def qStat (effects : List EffectSize) (logScale : Bool) : ℝ :=
  (List.zipWith (fun w v => w * (v - fixedPooled effects logScale) ^ 2)
    (feWeights effects) (effectValues effects logScale)).sum

/-- Embeds `df = len(effects) - 1` (Python int arithmetic on a nonempty list). -/
def dfOf (effects : List EffectSize) : ℕ :=
  effects.length - 1

/-- Embeds `i_squared = max(0, (q - df) / q * 100) if q > 0 else 0`. -/
noncomputable def iSquared (effects : List EffectSize) (logScale : Bool) : ℝ :=
  if 0 < qStat effects logScale then
    max 0 ((qStat effects logScale - (dfOf effects : ℝ)) / qStat effects logScale * 100)
  else 0

/-- Result (return value, weight-updated study list) of `fixed_effects` on a
nonempty list; the weight written back to study `i` is `w_i/total_weight*100`. -/
noncomputable def fixedCore (effects : List EffectSize) (logScale : Bool) :
    PooledEffect × List EffectSize :=
  ({ effect := if logScale then Real.exp (fixedPooled effects logScale)
               else fixedPooled effects logScale
     se := fixedSe effects
     ci_lower := if logScale then
         Real.exp (fixedPooled effects logScale - 1.96 * fixedSe effects)
       else fixedPooled effects logScale - 1.96 * fixedSe effects
     ci_upper := if logScale then
         Real.exp (fixedPooled effects logScale + 1.96 * fixedSe effects)
       else fixedPooled effects logScale + 1.96 * fixedSe effects
     z_score := fixedPooled effects logScale / fixedSe effects
     p_value := 2 * (1 - normCdf |fixedPooled effects logScale / fixedSe effects|)
     i_squared := iSquared effects logScale
     tau_squared := none
     q_statistic := qStat effects logScale
     df := dfOf effects
     method := PoolingMethod.fixed
     n_studies := effects.length },
   List.zipWith (fun e w => { e with weight := some (w / totalFeWeight effects * 100) })
     effects (feWeights effects))

/-- Embeds `MetaAnalysis.fixed_effects` (statistics.py lines 271-344); `none`
models the ValueError raised on an empty list.  The second component of the
result is the input list after the per-study weight assignment. -/
noncomputable def fixed_effects (effects : List EffectSize) (logScale : Bool) :
    Option (PooledEffect × List EffectSize) :=
  if effects.length = 0 then none else some (fixedCore effects logScale)

/-- Embeds `c = sum(fe_weights) - sum(w^2 for w in fe_weights) / sum(fe_weights)` in
`random_effects`. -/
noncomputable def cValue (effects : List EffectSize) : ℝ :=
  totalFeWeight effects -
    ((feWeights effects).map (fun w => w ^ 2)).sum / totalFeWeight effects

/-- DerSimonian-Laird between-study variance of `random_effects`:
`tau_sq = max(0, (fixed.q_statistic - fixed.df) / c) if c > 0 else 0`. -/
noncomputable def tauSquared (effects : List EffectSize) (logScale : Bool) : ℝ :=
  if 0 < cValue effects then
    max 0 (((fixedCore effects logScale).1.q_statistic -
      ((fixedCore effects logScale).1.df : ℝ)) / cValue effects)
  else 0

/-- The random-effects weights `w_i = 1/(se_i^2 + tau_sq)`. -/
noncomputable def reWeights (effects : List EffectSize) (logScale : Bool) : List ℝ :=
  effects.map (fun e => 1 / (e.se ^ 2 + tauSquared effects logScale))

/-- Embeds `total_weight = sum(re_weights)` in `random_effects`. -/
noncomputable def totalReWeight (effects : List EffectSize) (logScale : Bool) : ℝ :=
  (reWeights effects logScale).sum

/-- The pooled working value of `random_effects` under the random weights. -/
noncomputable def randomPooled (effects : List EffectSize) (logScale : Bool) : ℝ :=
  (List.zipWith (fun w v => w * v) (reWeights effects logScale)
    (effectValues effects logScale)).sum / totalReWeight effects logScale

/-- The pooled standard error of `random_effects`: `sqrt(1/total_weight)`. -/
noncomputable def randomSe (effects : List EffectSize) (logScale : Bool) : ℝ :=
  Real.sqrt (1 / totalReWeight effects logScale)

/-- Result (return value, weight-updated study list) of `random_effects` on a
nonempty list.  Heterogeneity statistics are carried over from the
fixed-effects pass; per-study weights come from the random-effects weights. -/
noncomputable def randomCore (effects : List EffectSize) (logScale : Bool) :
    PooledEffect × List EffectSize :=
  ({ effect := if logScale then Real.exp (randomPooled effects logScale)
               else randomPooled effects logScale
     se := randomSe effects logScale
     ci_lower := if logScale then
         Real.exp (randomPooled effects logScale - 1.96 * randomSe effects logScale)
       else randomPooled effects logScale - 1.96 * randomSe effects logScale
     ci_upper := if logScale then
         Real.exp (randomPooled effects logScale + 1.96 * randomSe effects logScale)
       else randomPooled effects logScale + 1.96 * randomSe effects logScale
     z_score := randomPooled effects logScale / randomSe effects logScale
     p_value := 2 * (1 - normCdf |randomPooled effects logScale / randomSe effects logScale|)
     i_squared := (fixedCore effects logScale).1.i_squared
     tau_squared := some (tauSquared effects logScale)
     q_statistic := (fixedCore effects logScale).1.q_statistic
     df := (fixedCore effects logScale).1.df
     method := PoolingMethod.random
     n_studies := effects.length },
   List.zipWith (fun e w =>
       { e with weight := some (w / totalReWeight effects logScale * 100) })
     effects (reWeights effects logScale))

/-- Embeds `MetaAnalysis.random_effects` (statistics.py lines 346-416); `none`
models the ValueError raised on an empty list. -/
noncomputable def random_effects (effects : List EffectSize) (logScale : Bool) :
    Option (PooledEffect × List EffectSize) :=
  if effects.length = 0 then none else some (randomCore effects logScale)

/-- Embeds `MetaAnalysis.pool` (statistics.py lines 418-443): OR and RR are
pooled on the log scale; dispatches on the pooling method. -/
noncomputable def pool (effects : List EffectSize) (method : PoolingMethod)
    (effect_measure : EffectMeasure) : Option (PooledEffect × List EffectSize) :=
  let logScale : Bool :=
    match effect_measure with
    | EffectMeasure.OR => true
    | EffectMeasure.RR => true
    | _ => false
  match method with
  | PoolingMethod.fixed => fixed_effects effects logScale
  | PoolingMethod.random => random_effects effects logScale

/-- An EffectSize with its (mutable, pooling-assigned) weight field cleared;
used to state that pooling changes nothing but the weight. -/
def eraseWeight (e : EffectSize) : EffectSize :=
  { e with weight := none }

/-- Embeds `min(all_ci_lower)` of `ForestPlot.create`: the minimum over the study
lower CI bounds and the pooled lower CI bound. -/
noncomputable def minLowerBound (effects : List EffectSize) (pooled : PooledEffect) : ℝ :=
  (effects.map (fun e => e.ci_lower)).foldr min pooled.ci_lower

/-- Embeds `max(all_ci_upper)` of `ForestPlot.create`: the maximum over the study
upper CI bounds and the pooled upper CI bound. -/
noncomputable def maxUpperBound (effects : List EffectSize) (pooled : PooledEffect) : ℝ :=
  (effects.map (fun e => e.ci_upper)).foldr max pooled.ci_upper

/-- Embeds the x-axis limit computation of `ForestPlot.create`
(forest_plot.py lines 86-95): the linear limits pad the minimum lower CI
bound by 1.1 (negative) or 0.9 (nonnegative) and the maximum upper CI bound
by 1.1; for OR/RR the lower limit is `max(0.01, min*0.8)` and the upper is
`max*1.2`.  Both extrema range over all study bounds plus the pooled bound. -/
noncomputable def forestXLimits (effects : List EffectSize) (pooled : PooledEffect)
    (measure : EffectMeasure) : ℝ × ℝ :=
  match measure with
  | EffectMeasure.OR =>
      (max 0.01 (minLowerBound effects pooled * 0.8), maxUpperBound effects pooled * 1.2)
  | EffectMeasure.RR =>
      (max 0.01 (minLowerBound effects pooled * 0.8), maxUpperBound effects pooled * 1.2)
  | _ =>
      (if minLowerBound effects pooled < 0 then minLowerBound effects pooled * 1.1
       else minLowerBound effects pooled * 0.9,
       maxUpperBound effects pooled * 1.1)

/-- Placeholder study name used for concrete instances. -/
def anon : String := ""

/-- Claim C7: pooling an empty list of effect sizes is a hard error for both
Fixed and Random methods: `fixed_effects([])`, `random_effects([])` and
`pool([], method, measure)` each raise (modelled as `none`) and produce no
pooled value; being pure, they change no input state. -/
theorem empty_pool_is_error :
    (∀ logScale : Bool, fixed_effects [] logScale = none) ∧
    (∀ logScale : Bool, random_effects [] logScale = none) ∧
    (∀ (method : PoolingMethod) (measure : EffectMeasure), pool [] method measure = none) := by
  refine ⟨fun _ => rfl, fun _ => rfl, fun method measure => ?_⟩
  cases method <;> cases measure <;> rfl

/-- Claim C8: for every SMD input with `n1 + n2 = 2` (which makes the pooled
SD computation divide by zero), `calculate_standardized_mean_difference`
surfaces an error immediately (modelled as `none`) rather than returning an
EffectSize. -/
theorem smd_degenerate_sample_is_error (mean1 sd1 mean2 sd2 : ℝ) (n1 n2 : ℤ)
    (study_id : ℤ) (study_name : String) (h : n1 + n2 = 2) :
    calculate_standardized_mean_difference mean1 sd1 n1 mean2 sd2 n2 study_id study_name
      = none := by
  unfold calculate_standardized_mean_difference
  rw [if_pos (Or.inl h)]

/-- Witness for C8: two groups of one participant each yield the error. -/
theorem smd_degenerate_sample_is_error_check :
    calculate_standardized_mean_difference 10 2 1 8 2 1 0 anon = none :=
  smd_degenerate_sample_is_error 10 2 8 2 1 1 0 anon (by norm_num)

/-- Claim C4: `calculate_odds_ratio` applies the 0.5 continuity correction to
all four cells unconditionally, returning `effect = (a*d)/(b*c)` with
`a = events1+0.5`, `b = (total1-events1)+0.5`, `c = events2+0.5`,
`d = (total2-events2)+0.5` and `se = sqrt(1/a + 1/b + 1/c + 1/d)`;
in particular `events1=10, total1=100, events2=10, total2=100` yields
`effect = 1` exactly. -/
theorem odds_unconditional_correction :
    (∀ (events1 total1 events2 total2 study_id : ℤ) (study_name : String),
      0 ≤ events1 → events1 ≤ total1 → 0 ≤ events2 → events2 ≤ total2 →
      (calculate_odds_ratio events1 total1 events2 total2 study_id study_name).effect =
        (((events1 : ℝ) + 0.5) * (((total2 : ℝ) - (events2 : ℝ)) + 0.5)) /
          ((((total1 : ℝ) - (events1 : ℝ)) + 0.5) * ((events2 : ℝ) + 0.5)) ∧
      (calculate_odds_ratio events1 total1 events2 total2 study_id study_name).se =
        Real.sqrt (1 / ((events1 : ℝ) + 0.5) + 1 / (((total1 : ℝ) - (events1 : ℝ)) + 0.5) +
          1 / ((events2 : ℝ) + 0.5) + 1 / (((total2 : ℝ) - (events2 : ℝ)) + 0.5))) ∧
    (calculate_odds_ratio 10 100 10 100 0 anon).effect = 1 := by
  constructor
  · intro events1 total1 events2 total2 study_id study_name h1 h12 h2 h22
    have ha : (0 : ℝ) < (events1 : ℝ) + 0.5 := by
      have : (0 : ℝ) ≤ (events1 : ℝ) := by exact_mod_cast h1
      linarith
    have hb : (0 : ℝ) < ((total1 : ℝ) - (events1 : ℝ)) + 0.5 := by
      have : (events1 : ℝ) ≤ (total1 : ℝ) := by exact_mod_cast h12
      linarith
    have hc : (0 : ℝ) < (events2 : ℝ) + 0.5 := by
      have : (0 : ℝ) ≤ (events2 : ℝ) := by exact_mod_cast h2
      linarith
    have hd : (0 : ℝ) < ((total2 : ℝ) - (events2 : ℝ)) + 0.5 := by
      have : (events2 : ℝ) ≤ (total2 : ℝ) := by exact_mod_cast h22
      linarith
    refine ⟨?_, rfl⟩
    show Real.exp (logOddsR events1 total1 events2 total2) = _
    rw [logOddsR, Real.exp_log (by positivity)]
  · show Real.exp (logOddsR 10 100 10 100) = 1
    have : logOddsR 10 100 10 100 = Real.log 1 := by
      rw [logOddsR]
      norm_num
    rw [this, Real.log_one, Real.exp_zero]

/-- Witness for C4: a concrete no-zero-cell table still gets the correction. -/
theorem odds_unconditional_correction_check :
    (calculate_odds_ratio 5 20 3 30 1 anon).effect =
      (((5 : ℤ) : ℝ) + 0.5) * ((((30 : ℤ) : ℝ) - ((3 : ℤ) : ℝ)) + 0.5) /
        (((((20 : ℤ) : ℝ) - ((5 : ℤ) : ℝ)) + 0.5) * (((3 : ℤ) : ℝ) + 0.5)) ∧
    (calculate_odds_ratio 5 20 3 30 1 anon).se =
      Real.sqrt (1 / (((5 : ℤ) : ℝ) + 0.5) + 1 / ((((20 : ℤ) : ℝ) - ((5 : ℤ) : ℝ)) + 0.5) +
        1 / (((3 : ℤ) : ℝ) + 0.5) + 1 / ((((30 : ℤ) : ℝ) - ((3 : ℤ) : ℝ)) + 0.5)) :=
  odds_unconditional_correction.1 5 20 3 30 1 anon (by norm_num) (by norm_num)
    (by norm_num) (by norm_num)

/-- For more than two participants in total, Hedges' factor lies in `[0, 1)`. -/
theorem hedgesJ_nonneg_lt_one (n1 n2 : ℤ) (h : 2 < n1 + n2) :
    0 ≤ hedgesJ n1 n2 ∧ hedgesJ n1 n2 < 1 := by
  have h3 : (3 : ℤ) ≤ n1 + n2 := by omega
  have hx : (3 : ℝ) ≤ (n1 : ℝ) + (n2 : ℝ) := by exact_mod_cast h3
  have hden : (0 : ℝ) < 4 * ((n1 : ℝ) + (n2 : ℝ) - 2) - 1 := by linarith
  unfold hedgesJ
  constructor
  · have : 3 / (4 * ((n1 : ℝ) + (n2 : ℝ) - 2) - 1) ≤ 1 := by
      rw [div_le_one hden]
      linarith
    linarith
  · have : 0 < 3 / (4 * ((n1 : ℝ) + (n2 : ℝ) - 2) - 1) := by positivity
    linarith

/-- The downward-correction gap `|d| - |g| = |d| * 3/(4*(n1+n2-2)-1)`. -/
theorem hedges_gap_eq (d : ℝ) (n1 n2 : ℤ) (h : 2 < n1 + n2) :
    |d| - |d * hedgesJ n1 n2| = |d| * (3 / (4 * ((n1 : ℝ) + (n2 : ℝ) - 2) - 1)) := by
  obtain ⟨h0, _⟩ := hedgesJ_nonneg_lt_one n1 n2 h
  rw [abs_mul, abs_of_nonneg h0, hedgesJ]
  ring

/-- Claim C5: for every SMD input with `n1 + n2 > 2` and nonzero Cohen's d,
the returned Hedges' g satisfies `|g| < |d|`, and for fixed `d` the gap
`|d| - |g|` strictly shrinks as `n1 + n2` grows.  The first conjunct links
the returned record to `smdCore`. -/
theorem hedges_correction_monotone :
    (∀ (mean1 sd1 mean2 sd2 : ℝ) (n1 n2 study_id : ℤ) (study_name : String),
      2 < n1 + n2 → n1 * n2 ≠ 0 →
      calculate_standardized_mean_difference mean1 sd1 n1 mean2 sd2 n2 study_id study_name =
        some (smdCore mean1 sd1 n1 mean2 sd2 n2 study_id study_name)) ∧
    (∀ (mean1 sd1 mean2 sd2 : ℝ) (n1 n2 study_id : ℤ) (study_name : String),
      2 < n1 + n2 → cohenD mean1 sd1 n1 mean2 sd2 n2 ≠ 0 →
      |(smdCore mean1 sd1 n1 mean2 sd2 n2 study_id study_name).effect| <
        |cohenD mean1 sd1 n1 mean2 sd2 n2|) ∧
    (∀ (mean1 sd1 mean2 sd2 mean3 sd3 mean4 sd4 : ℝ) (n1 n2 n3 n4 sid1 sid2 : ℤ)
      (sn1 sn2 : String),
      2 < n1 + n2 → n1 + n2 < n3 + n4 →
      cohenD mean1 sd1 n1 mean2 sd2 n2 ≠ 0 →
      cohenD mean3 sd3 n3 mean4 sd4 n4 = cohenD mean1 sd1 n1 mean2 sd2 n2 →
      |cohenD mean1 sd1 n1 mean2 sd2 n2| -
          |(smdCore mean3 sd3 n3 mean4 sd4 n4 sid2 sn2).effect| <
        |cohenD mean1 sd1 n1 mean2 sd2 n2| -
          |(smdCore mean1 sd1 n1 mean2 sd2 n2 sid1 sn1).effect|) := by
  refine ⟨?_, ?_, ?_⟩
  · intro mean1 sd1 mean2 sd2 n1 n2 study_id study_name h2 hnz
    unfold calculate_standardized_mean_difference
    rw [if_neg]
    push_neg
    exact ⟨by omega, hnz⟩
  · intro mean1 sd1 mean2 sd2 n1 n2 study_id study_name h2 hd
    obtain ⟨h0, h1⟩ := hedgesJ_nonneg_lt_one n1 n2 h2
    have habs : (0 : ℝ) < |cohenD mean1 sd1 n1 mean2 sd2 n2| := abs_pos.mpr hd
    show |cohenD mean1 sd1 n1 mean2 sd2 n2 * hedgesJ n1 n2| < _
    rw [abs_mul, abs_of_nonneg h0]
    calc |cohenD mean1 sd1 n1 mean2 sd2 n2| * hedgesJ n1 n2
        < |cohenD mean1 sd1 n1 mean2 sd2 n2| * 1 := by
          exact mul_lt_mul_of_pos_left h1 habs
      _ = |cohenD mean1 sd1 n1 mean2 sd2 n2| := mul_one _
  · intro mean1 sd1 mean2 sd2 mean3 sd3 mean4 sd4 n1 n2 n3 n4 sid1 sid2 sn1 sn2
      h2 hlt hd hdeq
    have h2b : 2 < n3 + n4 := lt_trans h2 hlt
    have habs : (0 : ℝ) < |cohenD mean1 sd1 n1 mean2 sd2 n2| := abs_pos.mpr hd
    show |cohenD mean1 sd1 n1 mean2 sd2 n2| - |cohenD mean3 sd3 n3 mean4 sd4 n4 * hedgesJ n3 n4|
        < |cohenD mean1 sd1 n1 mean2 sd2 n2| - |cohenD mean1 sd1 n1 mean2 sd2 n2 * hedgesJ n1 n2|
    rw [hdeq, hedges_gap_eq _ n1 n2 h2, hedges_gap_eq _ n3 n4 h2b]
    have h3 : (3 : ℝ) ≤ (n1 : ℝ) + (n2 : ℝ) := by exact_mod_cast (by omega : (3:ℤ) ≤ n1 + n2)
    have hxlt : (n1 : ℝ) + (n2 : ℝ) < (n3 : ℝ) + (n4 : ℝ) := by exact_mod_cast hlt
    have hdenpos : (0 : ℝ) < 4 * ((n1 : ℝ) + (n2 : ℝ) - 2) - 1 := by linarith
    have hfrac : 3 / (4 * ((n3 : ℝ) + (n4 : ℝ) - 2) - 1) <
        3 / (4 * ((n1 : ℝ) + (n2 : ℝ) - 2) - 1) := by
      apply div_lt_div_of_pos_left (by norm_num) hdenpos
      linarith
    exact mul_lt_mul_of_pos_left hfrac habs

/-- Witness for C5: `d = 1` at `n1 = n2 = 5` versus `n1 = n2 = 10` (equal SDs
make the pooled SD, hence d, independent of the group sizes). -/
theorem hedges_correction_monotone_check :
    |cohenD 10 2 5 8 2 5| - |(smdCore 10 2 10 8 2 10 0 anon).effect| <
      |cohenD 10 2 5 8 2 5| - |(smdCore 10 2 5 8 2 5 0 anon).effect| := by
  have hps5 : pooledSd 2 5 2 5 = 2 := by
    unfold pooledSd
    norm_num
    rw [show ((4 : ℝ)) = 2 ^ 2 by norm_num]
    exact Real.sqrt_sq (by norm_num)
  have hps10 : pooledSd 2 10 2 10 = 2 := by
    unfold pooledSd
    norm_num
    rw [show ((4 : ℝ)) = 2 ^ 2 by norm_num]
    exact Real.sqrt_sq (by norm_num)
  have hd5 : cohenD 10 2 5 8 2 5 = 1 := by
    unfold cohenD
    rw [hps5]
    norm_num
  have hd10 : cohenD 10 2 10 8 2 10 = 1 := by
    unfold cohenD
    rw [hps10]
    norm_num
  exact hedges_correction_monotone.2.2 10 2 8 2 10 2 8 2 5 5 10 10 0 0 anon anon
    (by norm_num) (by norm_num) (by rw [hd5]; norm_num) (by rw [hd5, hd10])

/-- The fixed-effects CI is ordered around the pooled effect on both scales. -/
theorem fixedCore_ci_order (effects : List EffectSize) (ls : Bool) :
    (fixedCore effects ls).1.ci_lower ≤ (fixedCore effects ls).1.effect ∧
    (fixedCore effects ls).1.effect ≤ (fixedCore effects ls).1.ci_upper := by
  have hs : 0 ≤ fixedSe effects := Real.sqrt_nonneg _
  have h1 : fixedPooled effects ls - 1.96 * fixedSe effects ≤ fixedPooled effects ls := by
    nlinarith
  have h2 : fixedPooled effects ls ≤ fixedPooled effects ls + 1.96 * fixedSe effects := by
    nlinarith
  cases ls
  · exact ⟨h1, h2⟩
  · exact ⟨Real.exp_le_exp.mpr h1, Real.exp_le_exp.mpr h2⟩

/-- The random-effects CI is ordered around the pooled effect on both scales. -/
theorem randomCore_ci_order (effects : List EffectSize) (ls : Bool) :
    (randomCore effects ls).1.ci_lower ≤ (randomCore effects ls).1.effect ∧
    (randomCore effects ls).1.effect ≤ (randomCore effects ls).1.ci_upper := by
  have hs : 0 ≤ randomSe effects ls := Real.sqrt_nonneg _
  have h1 : randomPooled effects ls - 1.96 * randomSe effects ls ≤ randomPooled effects ls := by
    nlinarith
  have h2 : randomPooled effects ls ≤ randomPooled effects ls + 1.96 * randomSe effects ls := by
    nlinarith
  cases ls
  · exact ⟨h1, h2⟩
  · exact ⟨Real.exp_le_exp.mpr h1, Real.exp_le_exp.mpr h2⟩

/-- The heterogeneity `i_squared` always lands in `[0, 100]`. -/
theorem iSquared_bounds (effects : List EffectSize) (ls : Bool) :
    0 ≤ iSquared effects ls ∧ iSquared effects ls ≤ 100 := by
  unfold iSquared
  split
  case isTrue hq =>
    refine ⟨le_max_left 0 _, max_le (by norm_num) ?_⟩
    have hdf : (0 : ℝ) ≤ (dfOf effects : ℝ) := Nat.cast_nonneg _
    have hle : (qStat effects ls - (dfOf effects : ℝ)) / qStat effects ls ≤ 1 := by
      rw [div_le_one hq]
      linarith
    nlinarith
  case isFalse hq => norm_num

/-- A nonempty list of effect sizes has a nonzero length guard. -/
theorem fixed_effects_of_ne_nil (effects : List EffectSize) (ls : Bool)
    (h : effects ≠ []) : fixed_effects effects ls = some (fixedCore effects ls) := by
  unfold fixed_effects
  rw [if_neg (fun hlen => h (List.length_eq_zero.mp hlen))]

/-- Calling `random_effects` on a nonempty list returns `randomCore`. -/
theorem random_effects_of_ne_nil (effects : List EffectSize) (ls : Bool)
    (h : effects ≠ []) : random_effects effects ls = some (randomCore effects ls) := by
  unfold random_effects
  rw [if_neg (fun hlen => h (List.length_eq_zero.mp hlen))]

/-- Claim C6: for all valid inputs, every EffectSize returned by the four
calculators and every PooledEffect returned by pooling satisfies
`ci_lower ≤ effect ≤ ci_upper`, and every PooledEffect satisfies
`0 ≤ i_squared ≤ 100`. -/
theorem ci_contains_effect_and_isquared_bounded :
    (∀ (mean1 sd1 mean2 sd2 : ℝ) (n1 n2 sid : ℤ) (sn : String), 0 < n1 → 0 < n2 →
      calculate_mean_difference mean1 sd1 n1 mean2 sd2 n2 sid sn =
        some (mdCore mean1 sd1 n1 mean2 sd2 n2 sid sn) ∧
      (mdCore mean1 sd1 n1 mean2 sd2 n2 sid sn).ci_lower ≤
        (mdCore mean1 sd1 n1 mean2 sd2 n2 sid sn).effect ∧
      (mdCore mean1 sd1 n1 mean2 sd2 n2 sid sn).effect ≤
        (mdCore mean1 sd1 n1 mean2 sd2 n2 sid sn).ci_upper) ∧
    (∀ (mean1 sd1 mean2 sd2 : ℝ) (n1 n2 sid : ℤ) (sn : String),
      2 < n1 + n2 → 0 < n1 → 0 < n2 →
      calculate_standardized_mean_difference mean1 sd1 n1 mean2 sd2 n2 sid sn =
        some (smdCore mean1 sd1 n1 mean2 sd2 n2 sid sn) ∧
      (smdCore mean1 sd1 n1 mean2 sd2 n2 sid sn).ci_lower ≤
        (smdCore mean1 sd1 n1 mean2 sd2 n2 sid sn).effect ∧
      (smdCore mean1 sd1 n1 mean2 sd2 n2 sid sn).effect ≤
        (smdCore mean1 sd1 n1 mean2 sd2 n2 sid sn).ci_upper) ∧
    (∀ (events1 total1 events2 total2 sid : ℤ) (sn : String),
      0 ≤ events1 → events1 ≤ total1 → 0 ≤ events2 → events2 ≤ total2 →
      (calculate_odds_ratio events1 total1 events2 total2 sid sn).ci_lower ≤
        (calculate_odds_ratio events1 total1 events2 total2 sid sn).effect ∧
      (calculate_odds_ratio events1 total1 events2 total2 sid sn).effect ≤
        (calculate_odds_ratio events1 total1 events2 total2 sid sn).ci_upper) ∧
    (∀ (events1 total1 events2 total2 sid : ℤ) (sn : String),
      0 ≤ events1 → events1 ≤ total1 → 0 ≤ events2 → events2 ≤ total2 →
      (calculate_risk_ratio events1 total1 events2 total2 sid sn).ci_lower ≤
        (calculate_risk_ratio events1 total1 events2 total2 sid sn).effect ∧
      (calculate_risk_ratio events1 total1 events2 total2 sid sn).effect ≤
        (calculate_risk_ratio events1 total1 events2 total2 sid sn).ci_upper) ∧
    (∀ (effects : List EffectSize) (ls : Bool), effects ≠ [] →
      (∀ e ∈ effects, 0 < e.se) →
      fixed_effects effects ls = some (fixedCore effects ls) ∧
      (fixedCore effects ls).1.ci_lower ≤ (fixedCore effects ls).1.effect ∧
      (fixedCore effects ls).1.effect ≤ (fixedCore effects ls).1.ci_upper ∧
      0 ≤ (fixedCore effects ls).1.i_squared ∧ (fixedCore effects ls).1.i_squared ≤ 100) ∧
    (∀ (effects : List EffectSize) (ls : Bool), effects ≠ [] →
      (∀ e ∈ effects, 0 < e.se) →
      random_effects effects ls = some (randomCore effects ls) ∧
      (randomCore effects ls).1.ci_lower ≤ (randomCore effects ls).1.effect ∧
      (randomCore effects ls).1.effect ≤ (randomCore effects ls).1.ci_upper ∧
      0 ≤ (randomCore effects ls).1.i_squared ∧ (randomCore effects ls).1.i_squared ≤ 100) := by
  refine ⟨?_, ?_, ?_, ?_, ?_, ?_⟩
  · intro mean1 sd1 mean2 sd2 n1 n2 sid sn hn1 hn2
    refine ⟨?_, ?_, ?_⟩
    · unfold calculate_mean_difference
      rw [if_neg]
      push_neg
      exact ⟨by omega, by omega⟩
    · have hs : 0 ≤ seMd sd1 n1 sd2 n2 := Real.sqrt_nonneg _
      show (mean1 - mean2) - 1.96 * seMd sd1 n1 sd2 n2 ≤ mean1 - mean2
      nlinarith
    · have hs : 0 ≤ seMd sd1 n1 sd2 n2 := Real.sqrt_nonneg _
      show mean1 - mean2 ≤ (mean1 - mean2) + 1.96 * seMd sd1 n1 sd2 n2
      nlinarith
  · intro mean1 sd1 mean2 sd2 n1 n2 sid sn hsum hn1 hn2
    refine ⟨?_, ?_, ?_⟩
    · unfold calculate_standardized_mean_difference
      rw [if_neg]
      push_neg
      exact ⟨by omega, by positivity⟩
    · have hs : 0 ≤ seSmd mean1 sd1 n1 mean2 sd2 n2 := Real.sqrt_nonneg _
      show cohenD mean1 sd1 n1 mean2 sd2 n2 * hedgesJ n1 n2 -
          1.96 * seSmd mean1 sd1 n1 mean2 sd2 n2 ≤
        cohenD mean1 sd1 n1 mean2 sd2 n2 * hedgesJ n1 n2
      nlinarith
    · have hs : 0 ≤ seSmd mean1 sd1 n1 mean2 sd2 n2 := Real.sqrt_nonneg _
      show cohenD mean1 sd1 n1 mean2 sd2 n2 * hedgesJ n1 n2 ≤
        cohenD mean1 sd1 n1 mean2 sd2 n2 * hedgesJ n1 n2 +
          1.96 * seSmd mean1 sd1 n1 mean2 sd2 n2
      nlinarith
  · intro events1 total1 events2 total2 sid sn h1 h2 h3 h4
    have hs : 0 ≤ seOddsR events1 total1 events2 total2 := Real.sqrt_nonneg _
    constructor
    · exact Real.exp_le_exp.mpr (by nlinarith)
    · exact Real.exp_le_exp.mpr (by nlinarith)
  · intro events1 total1 events2 total2 sid sn h1 h2 h3 h4
    have hs : 0 ≤ seRiskR events1 total1 events2 total2 := Real.sqrt_nonneg _
    constructor
    · exact Real.exp_le_exp.mpr (by nlinarith)
    · exact Real.exp_le_exp.mpr (by nlinarith)
  · intro effects ls hne _
    obtain ⟨hl, hu⟩ := fixedCore_ci_order effects ls
    obtain ⟨hi0, hi1⟩ := iSquared_bounds effects ls
    exact ⟨fixed_effects_of_ne_nil effects ls hne, hl, hu, hi0, hi1⟩
  · intro effects ls hne _
    obtain ⟨hl, hu⟩ := randomCore_ci_order effects ls
    obtain ⟨hi0, hi1⟩ := iSquared_bounds effects ls
    exact ⟨random_effects_of_ne_nil effects ls hne, hl, hu, hi0, hi1⟩

/-- A concrete study used by witnesses. -/
noncomputable def esA : EffectSize := ⟨1, anon, 0.5, 0.1, 0.3, 0.7, none, none⟩

/-- A second concrete study used by witnesses. -/
noncomputable def esB : EffectSize := ⟨2, anon, 0.6, 0.15, 0.3, 0.9, none, none⟩

/-- Witness for C6: all six parts applied at concrete valid inputs. -/
theorem ci_contains_effect_and_isquared_bounded_check :
    (calculate_mean_difference 10 2 50 8 (5/2 : ℝ) 50 0 anon =
      some (mdCore 10 2 50 8 (5/2 : ℝ) 50 0 anon)) ∧
    (calculate_standardized_mean_difference 10 2 50 8 2 50 0 anon =
      some (smdCore 10 2 50 8 2 50 0 anon)) ∧
    ((calculate_odds_ratio 10 100 10 100 0 anon).ci_lower ≤
      (calculate_odds_ratio 10 100 10 100 0 anon).effect) ∧
    ((calculate_risk_ratio 20 100 10 100 0 anon).effect ≤
      (calculate_risk_ratio 20 100 10 100 0 anon).ci_upper) ∧
    (fixed_effects [esA, esB] false = some (fixedCore [esA, esB] false) ∧
      0 ≤ (fixedCore [esA, esB] false).1.i_squared) ∧
    (random_effects [esA, esB] false = some (randomCore [esA, esB] false) ∧
      (randomCore [esA, esB] false).1.i_squared ≤ 100) := by
  have hne : ([esA, esB] : List EffectSize) ≠ [] := by simp
  have hse : ∀ e ∈ [esA, esB], 0 < e.se := by
    intro e he
    simp only [List.mem_cons, List.not_mem_nil, or_false] at he
    rcases he with rfl | rfl
    · show (0 : ℝ) < (0.1 : ℝ)
      norm_num
    · show (0 : ℝ) < (0.15 : ℝ)
      norm_num
  have p5 := ci_contains_effect_and_isquared_bounded.2.2.2.2.1 [esA, esB] false hne hse
  have p6 := ci_contains_effect_and_isquared_bounded.2.2.2.2.2 [esA, esB] false hne hse
  exact ⟨(ci_contains_effect_and_isquared_bounded.1 10 2 8 (5/2 : ℝ) 50 50 0 anon
      (by norm_num) (by norm_num)).1,
    (ci_contains_effect_and_isquared_bounded.2.1 10 2 8 2 50 50 0 anon
      (by norm_num) (by norm_num) (by norm_num)).1,
    (ci_contains_effect_and_isquared_bounded.2.2.1 10 100 10 100 0 anon
      (by norm_num) (by norm_num) (by norm_num) (by norm_num)).1,
    (ci_contains_effect_and_isquared_bounded.2.2.2.1 20 100 10 100 0 anon
      (by norm_num) (by norm_num) (by norm_num) (by norm_num)).2,
    ⟨p5.1, p5.2.2.2.1⟩, ⟨p6.1, p6.2.2.2.2⟩⟩

/-- The working values are the pointwise `workingValue` of the effects. -/
theorem effectValues_eq_map (effects : List EffectSize) (ls : Bool) :
    effectValues effects ls = effects.map (fun e => workingValue ls e.effect) := by
  cases ls <;> simp [effectValues, workingValue]

/-- Reading back the weights written by a pooling pass. -/
theorem zipWith_weight_map_getD (g : ℝ → ℝ) :
    ∀ (es : List EffectSize) (ws : List ℝ), es.length = ws.length →
    (List.zipWith (fun e w => { e with weight := some (g w) }) es ws).map
        (fun e => e.weight.getD 0) = ws.map g := by
  intro es
  induction es with
  | nil =>
    intro ws h
    cases ws with
    | nil => simp
    | cons w ws => simp at h
  | cons e es ih =>
    intro ws h
    cases ws with
    | nil => simp at h
    | cons w ws =>
      simp only [List.zipWith_cons_cons, List.map_cons, Option.getD_some]
      rw [ih ws (by simpa using h)]

/-- A pooling pass only writes the weight field. -/
theorem zipWith_weight_map_erase (g : ℝ → ℝ) :
    ∀ (es : List EffectSize) (ws : List ℝ), es.length = ws.length →
    (List.zipWith (fun e w => { e with weight := some (g w) }) es ws).map eraseWeight =
      es.map eraseWeight := by
  intro es
  induction es with
  | nil =>
    intro ws h
    simp
  | cons e es ih =>
    intro ws h
    cases ws with
    | nil => simp at h
    | cons w ws =>
      simp only [List.zipWith_cons_cons, List.map_cons]
      rw [ih ws (by simpa using h)]
      rfl

/-- Summing the percentage weights gives the total over the total. -/
theorem sum_map_div_mul (l : List ℝ) (T : ℝ) :
    (l.map (fun w => w / T * 100)).sum = l.sum / T * 100 := by
  induction l with
  | nil => simp
  | cons x l ih => simp [ih, add_div, add_mul]

/-- All inverse-variance weights are positive when all SEs are. -/
theorem feWeights_pos (effects : List EffectSize) (hse : ∀ e ∈ effects, 0 < e.se) :
    ∀ x ∈ feWeights effects, 0 < x := by
  intro x hx
  obtain ⟨e, he, rfl⟩ := List.mem_map.mp hx
  have := hse e he
  positivity

/-- The total inverse-variance weight of a nonempty study list is positive. -/
theorem totalFeWeight_pos (effects : List EffectSize) (hne : effects ≠ [])
    (hse : ∀ e ∈ effects, 0 < e.se) : 0 < totalFeWeight effects :=
  List.sum_pos _ (feWeights_pos effects hse) (by
    intro h
    exact hne (List.map_eq_nil_iff.mp h))

/-- The variance `tau^2` is nonnegative on every code path. -/
theorem tauSquared_nonneg (effects : List EffectSize) (ls : Bool) :
    0 ≤ tauSquared effects ls := by
  unfold tauSquared
  split
  · exact le_max_left 0 _
  · exact le_refl 0

/-- All random-effects weights are positive when all SEs are. -/
theorem reWeights_pos (effects : List EffectSize) (ls : Bool)
    (hse : ∀ e ∈ effects, 0 < e.se) : ∀ x ∈ reWeights effects ls, 0 < x := by
  intro x hx
  obtain ⟨e, he, rfl⟩ := List.mem_map.mp hx
  have h1 := hse e he
  have h2 := tauSquared_nonneg effects ls
  have : 0 < e.se ^ 2 + tauSquared effects ls := by positivity
  positivity

/-- The total random-effects weight of a nonempty study list is positive. -/
theorem totalReWeight_pos (effects : List EffectSize) (ls : Bool) (hne : effects ≠ [])
    (hse : ∀ e ∈ effects, 0 < e.se) : 0 < totalReWeight effects ls :=
  List.sum_pos _ (reWeights_pos effects ls hse) (by
    intro h
    exact hne (List.map_eq_nil_iff.mp h))

/-- Claim C2: after `fixed_effects` the weights assigned to the inputs
(`w_i/sum(w) * 100`) sum to 100.0 within 1e-6, and after `random_effects` the
weights assigned from the random-effects weights likewise sum to 100.0
within 1e-6, for every nonempty list with positive SEs. -/
theorem weights_sum_to_100 :
    (∀ (effects : List EffectSize) (ls : Bool), effects ≠ [] →
      (∀ e ∈ effects, 0 < e.se) →
      |((fixedCore effects ls).2.map (fun e => e.weight.getD 0)).sum - 100| ≤ 1e-6) ∧
    (∀ (effects : List EffectSize) (ls : Bool), effects ≠ [] →
      (∀ e ∈ effects, 0 < e.se) →
      |((randomCore effects ls).2.map (fun e => e.weight.getD 0)).sum - 100| ≤ 1e-6) := by
  constructor
  · intro effects ls hne hse
    have hT := totalFeWeight_pos effects hne hse
    have hmap : (fixedCore effects ls).2.map (fun e => e.weight.getD 0) =
        (feWeights effects).map (fun w => w / totalFeWeight effects * 100) :=
      zipWith_weight_map_getD _ effects (feWeights effects) (List.length_map _ _).symm
    rw [hmap, sum_map_div_mul]
    show |totalFeWeight effects / totalFeWeight effects * 100 - 100| ≤ _
    rw [div_self (ne_of_gt hT)]
    norm_num
  · intro effects ls hne hse
    have hT := totalReWeight_pos effects ls hne hse
    have hmap : (randomCore effects ls).2.map (fun e => e.weight.getD 0) =
        (reWeights effects ls).map (fun w => w / totalReWeight effects ls * 100) :=
      zipWith_weight_map_getD _ effects (reWeights effects ls) (List.length_map _ _).symm
    rw [hmap, sum_map_div_mul]
    show |totalReWeight effects ls / totalReWeight effects ls * 100 - 100| ≤ _
    rw [div_self (ne_of_gt hT)]
    norm_num

/-- Witness for C2: both pooling passes on a concrete two-study list. -/
theorem weights_sum_to_100_check :
    |((fixedCore [esA, esB] false).2.map (fun e => e.weight.getD 0)).sum - 100| ≤ 1e-6 ∧
    |((randomCore [esA, esB] false).2.map (fun e => e.weight.getD 0)).sum - 100| ≤ 1e-6 := by
  have hne : ([esA, esB] : List EffectSize) ≠ [] := by simp
  have hse : ∀ e ∈ [esA, esB], 0 < e.se := by
    intro e he
    simp only [List.mem_cons, List.not_mem_nil, or_false] at he
    rcases he with rfl | rfl
    · show (0 : ℝ) < (0.1 : ℝ)
      norm_num
    · show (0 : ℝ) < (0.15 : ℝ)
      norm_num
  exact ⟨weights_sum_to_100.1 [esA, esB] false hne hse,
    weights_sum_to_100.2 [esA, esB] false hne hse⟩

/-- Claim C10: a `fixed_effects` or `random_effects` call changes only the
`weight` field of each input EffectSize: erasing the weights of the output
study list recovers the input list (same length, order, ids, names, effects,
SEs, CI bounds and totals). -/
theorem pooling_changes_only_weight :
    (∀ (effects : List EffectSize) (ls : Bool) (P : PooledEffect) (out : List EffectSize),
      fixed_effects effects ls = some (P, out) →
      out.length = effects.length ∧ out.map eraseWeight = effects.map eraseWeight) ∧
    (∀ (effects : List EffectSize) (ls : Bool) (P : PooledEffect) (out : List EffectSize),
      random_effects effects ls = some (P, out) →
      out.length = effects.length ∧ out.map eraseWeight = effects.map eraseWeight) := by
  constructor
  · intro effects ls P out h
    unfold fixed_effects at h
    split at h
    · exact absurd h (by simp)
    · have h2 := Option.some.inj h
      have hout : out = (fixedCore effects ls).2 := by rw [h2]
      subst hout
      constructor
      · show (List.zipWith _ effects (feWeights effects)).length = _
        simp [List.length_zipWith, feWeights]
      · exact zipWith_weight_map_erase _ effects (feWeights effects)
          (List.length_map _ _).symm
  · intro effects ls P out h
    unfold random_effects at h
    split at h
    · exact absurd h (by simp)
    · have h2 := Option.some.inj h
      have hout : out = (randomCore effects ls).2 := by rw [h2]
      subst hout
      constructor
      · show (List.zipWith _ effects (reWeights effects ls)).length = _
        simp [List.length_zipWith, reWeights]
      · exact zipWith_weight_map_erase _ effects (reWeights effects ls)
          (List.length_map _ _).symm

/-- Witness for C10: a concrete two-study fixed and random pooling. -/
theorem pooling_changes_only_weight_check :
    ((fixedCore [esA, esB] false).2.map eraseWeight = [esA, esB].map eraseWeight) ∧
    ((randomCore [esA, esB] true).2.map eraseWeight = [esA, esB].map eraseWeight) := by
  have h1 : fixed_effects [esA, esB] false = some (fixedCore [esA, esB] false) :=
    fixed_effects_of_ne_nil _ _ (by simp)
  have h2 : random_effects [esA, esB] true = some (randomCore [esA, esB] true) :=
    random_effects_of_ne_nil _ _ (by simp)
  exact ⟨(pooling_changes_only_weight.1 [esA, esB] false _ _ h1).2,
    (pooling_changes_only_weight.2 [esA, esB] true _ _ h2).2⟩

/-- Total fixed-effects weight of a single study. -/
theorem totalFeWeight_single (e : EffectSize) : totalFeWeight [e] = 1 / e.se ^ 2 := by
  simp [totalFeWeight, feWeights]

/-- The pooled working value of a single study is its own working value. -/
theorem fixedPooled_single (e : EffectSize) (ls : Bool) (hse : e.se ≠ 0) :
    fixedPooled [e] ls = workingValue ls e.effect := by
  rw [fixedPooled, effectValues_eq_map]
  simp only [feWeights, List.map_cons, List.map_nil, List.zipWith_cons_cons,
    List.zipWith_nil_right, List.sum_cons, List.sum_nil, totalFeWeight_single, add_zero]
  field_simp

/-- Cochran's Q vanishes for a single study. -/
theorem qStat_single (e : EffectSize) (ls : Bool) (hse : e.se ≠ 0) :
    qStat [e] ls = 0 := by
  rw [qStat, effectValues_eq_map]
  simp [feWeights, fixedPooled_single e ls hse]

/-- Here `df = 0` for a single study. -/
theorem dfOf_single (e : EffectSize) : dfOf [e] = 0 := rfl

/-- Here `i_squared = 0` for a single study. -/
theorem iSquared_single (e : EffectSize) (ls : Bool) (hse : e.se ≠ 0) :
    iSquared [e] ls = 0 := by
  unfold iSquared
  rw [qStat_single e ls hse]
  simp

/-- The DerSimonian-Laird `c` vanishes for a single study. -/
theorem cValue_single (e : EffectSize) (hse : e.se ≠ 0) : cValue [e] = 0 := by
  simp only [cValue, feWeights, totalFeWeight, List.map_cons, List.map_nil,
    List.sum_cons, List.sum_nil, add_zero]
  field_simp
  ring

/-- Here `tau^2 = 0` for a single study. -/
theorem tauSquared_single (e : EffectSize) (ls : Bool) (hse : e.se ≠ 0) :
    tauSquared [e] ls = 0 := by
  unfold tauSquared
  rw [cValue_single e hse]
  simp

/-- The random-effects weights of a single study equal the fixed ones. -/
theorem reWeights_single (e : EffectSize) (ls : Bool) (hse : e.se ≠ 0) :
    reWeights [e] ls = [1 / e.se ^ 2] := by
  simp [reWeights, tauSquared_single e ls hse]

/-- The random pooled working value of a single study is its working value. -/
theorem randomPooled_single (e : EffectSize) (ls : Bool) (hse : e.se ≠ 0) :
    randomPooled [e] ls = workingValue ls e.effect := by
  rw [randomPooled, effectValues_eq_map, totalReWeight, reWeights_single e ls hse]
  simp only [List.map_cons, List.map_nil, List.zipWith_cons_cons,
    List.zipWith_nil_right, List.sum_cons, List.sum_nil, add_zero]
  field_simp

/-- Claim C1 (amended): pooling a single study with `se > 0` under either
method yields `q_statistic = 0`, `df = 0`, `i_squared = 0`, and the pooled
effect equals the study effect whenever the pooling is linear or the study
effect is positive (the log-scale working-value fallback for non-positive
effects makes the exception necessary). -/
theorem single_study_pooling (e : EffectSize) (ls : Bool) (hse : 0 < e.se)
    (hv : ls = false ∨ 0 < e.effect) :
    fixed_effects [e] ls = some (fixedCore [e] ls) ∧
    (fixedCore [e] ls).1.effect = e.effect ∧
    (fixedCore [e] ls).1.q_statistic = 0 ∧
    (fixedCore [e] ls).1.df = 0 ∧
    (fixedCore [e] ls).1.i_squared = 0 ∧
    random_effects [e] ls = some (randomCore [e] ls) ∧
    (randomCore [e] ls).1.effect = e.effect ∧
    (randomCore [e] ls).1.q_statistic = 0 ∧
    (randomCore [e] ls).1.df = 0 ∧
    (randomCore [e] ls).1.i_squared = 0 := by
  have hne : e.se ≠ 0 := ne_of_gt hse
  have hval : (if ls then Real.exp (workingValue ls e.effect)
      else workingValue ls e.effect) = e.effect := by
    rcases hv with rfl | hpos
    · simp [workingValue]
    · cases ls
      · simp [workingValue]
      · simp only [if_true, workingValue, if_pos hpos]
        exact Real.exp_log hpos
  refine ⟨fixed_effects_of_ne_nil _ _ (by simp), ?_, qStat_single e ls hne,
    dfOf_single e, iSquared_single e ls hne, random_effects_of_ne_nil _ _ (by simp),
    ?_, ?_, ?_, ?_⟩
  · show (if ls then Real.exp (fixedPooled [e] ls) else fixedPooled [e] ls) = e.effect
    rw [fixedPooled_single e ls hne]
    exact hval
  · show (if ls then Real.exp (randomPooled [e] ls) else randomPooled [e] ls) = e.effect
    rw [randomPooled_single e ls hne]
    exact hval
  · exact qStat_single e ls hne
  · exact dfOf_single e
  · exact iSquared_single e ls hne

/-- A study with a negative effect, used by the C1 counterexample. -/
noncomputable def esNeg : EffectSize := ⟨3, anon, -1, 1, -1, -1, none, none⟩

/-- Counterexample to C1 as stated: for a single study with `effect = -1` and
`se = 1`, log-scale fixed pooling returns a pooled effect of `1`, not the
study effect `-1` (the code maps a non-positive effect to working value 0 and
exponentiates it back). -/
theorem single_study_pooling_cex :
    esNeg.effect = -1 ∧
    fixed_effects [esNeg] true = some (fixedCore [esNeg] true) ∧
    (fixedCore [esNeg] true).1.effect = 1 := by
  refine ⟨rfl, fixed_effects_of_ne_nil _ _ (by simp), ?_⟩
  have hne : esNeg.se ≠ 0 := by
    show (1 : ℝ) ≠ 0
    norm_num
  show Real.exp (fixedPooled [esNeg] true) = 1
  rw [fixedPooled_single esNeg true hne]
  show Real.exp (if 0 < esNeg.effect then Real.log esNeg.effect else 0) = 1
  rw [if_neg (by show ¬((0 : ℝ) < -1); norm_num)]
  exact Real.exp_zero

/-- Witness for C1: a single positive-effect study pooled on the log scale. -/
theorem single_study_pooling_check :
    (fixedCore [esA] true).1.effect = esA.effect ∧
    (randomCore [esA] true).1.i_squared = 0 := by
  have h := single_study_pooling esA true
    (by show (0 : ℝ) < (0.1 : ℝ); norm_num)
    (Or.inr (by show (0 : ℝ) < (0.5 : ℝ); norm_num))
  exact ⟨h.2.1, h.2.2.2.2.2.2.2.2.2⟩

/-- A `foldr min` is below its base and every list member. -/
theorem foldr_min_le (l : List ℝ) (b : ℝ) :
    l.foldr min b ≤ b ∧ ∀ x ∈ l, l.foldr min b ≤ x := by
  induction l with
  | nil => exact ⟨le_refl b, by simp⟩
  | cons y l ih =>
    refine ⟨le_trans (min_le_right _ _) ih.1, ?_⟩
    intro x hx
    rcases List.mem_cons.mp hx with rfl | hx
    · exact min_le_left _ _
    · exact le_trans (min_le_right _ _) (ih.2 x hx)

/-- A `foldr max` is above its base and every list member. -/
theorem le_foldr_max (l : List ℝ) (b : ℝ) :
    b ≤ l.foldr max b ∧ ∀ x ∈ l, x ≤ l.foldr max b := by
  induction l with
  | nil => exact ⟨le_refl b, by simp⟩
  | cons y l ih =>
    refine ⟨le_trans ih.1 (le_max_right _ _), ?_⟩
    intro x hx
    rcases List.mem_cons.mp hx with rfl | hx
    · exact le_max_left _ _
    · exact le_trans (ih.2 x hx) (le_max_right _ _)

/-- Claim C9 (amended): the forest-plot axis limits contain the extreme CI
bounds under the sign conditions the padding arithmetic needs: the linear
lower limit is always ≤ the minimum lower bound; the upper limit is ≥ the
maximum upper bound whenever that maximum is nonnegative; for OR/RR the lower
limit is ≤ the minimum lower bound whenever that minimum is ≥ 0.01; and the
extrema do bound every study and the pooled effect.  No minimum-width
clamping is applied (see the counterexample for the degenerate case). -/
theorem forest_axis_limits_contain :
    (∀ (effects : List EffectSize) (pooled : PooledEffect),
      (∀ e ∈ effects, minLowerBound effects pooled ≤ e.ci_lower) ∧
      minLowerBound effects pooled ≤ pooled.ci_lower ∧
      (∀ e ∈ effects, e.ci_upper ≤ maxUpperBound effects pooled) ∧
      pooled.ci_upper ≤ maxUpperBound effects pooled) ∧
    (∀ (effects : List EffectSize) (pooled : PooledEffect) (measure : EffectMeasure),
      measure = EffectMeasure.MD ∨ measure = EffectMeasure.SMD →
      (forestXLimits effects pooled measure).1 ≤ minLowerBound effects pooled ∧
      (0 ≤ maxUpperBound effects pooled →
        maxUpperBound effects pooled ≤ (forestXLimits effects pooled measure).2)) ∧
    (∀ (effects : List EffectSize) (pooled : PooledEffect) (measure : EffectMeasure),
      measure = EffectMeasure.OR ∨ measure = EffectMeasure.RR →
      (0.01 ≤ minLowerBound effects pooled →
        (forestXLimits effects pooled measure).1 ≤ minLowerBound effects pooled) ∧
      (0 ≤ maxUpperBound effects pooled →
        maxUpperBound effects pooled ≤ (forestXLimits effects pooled measure).2)) := by
  refine ⟨?_, ?_, ?_⟩
  · intro effects pooled
    obtain ⟨hminb, hminm⟩ := foldr_min_le (effects.map (fun e => e.ci_lower)) pooled.ci_lower
    obtain ⟨hmaxb, hmaxm⟩ := le_foldr_max (effects.map (fun e => e.ci_upper)) pooled.ci_upper
    refine ⟨?_, hminb, ?_, hmaxb⟩
    · intro e he
      exact hminm e.ci_lower (List.mem_map.mpr ⟨e, he, rfl⟩)
    · intro e he
      exact hmaxm e.ci_upper (List.mem_map.mpr ⟨e, he, rfl⟩)
  · intro effects pooled measure hm
    have hlin : forestXLimits effects pooled measure =
        (if minLowerBound effects pooled < 0 then minLowerBound effects pooled * 1.1
         else minLowerBound effects pooled * 0.9,
         maxUpperBound effects pooled * 1.1) := by
      rcases hm with rfl | rfl <;> rfl
    rw [hlin]
    constructor
    · show (if minLowerBound effects pooled < 0 then minLowerBound effects pooled * 1.1
        else minLowerBound effects pooled * 0.9) ≤ minLowerBound effects pooled
      split
      case isTrue hneg => nlinarith
      case isFalse hpos =>
        push_neg at hpos
        nlinarith
    · intro hmax
      show maxUpperBound effects pooled ≤ maxUpperBound effects pooled * 1.1
      nlinarith
  · intro effects pooled measure hm
    have hlog : forestXLimits effects pooled measure =
        (max 0.01 (minLowerBound effects pooled * 0.8),
         maxUpperBound effects pooled * 1.2) := by
      rcases hm with rfl | rfl <;> rfl
    rw [hlog]
    constructor
    · intro hmin
      show max 0.01 (minLowerBound effects pooled * 0.8) ≤ minLowerBound effects pooled
      exact max_le hmin (by nlinarith)
    · intro hmax
      show maxUpperBound effects pooled ≤ maxUpperBound effects pooled * 1.2
      nlinarith

/-- A degenerate study (all CI bounds -2, zero width) for the C9 counterexample. -/
noncomputable def esFlat : EffectSize := ⟨4, anon, -2, 1, -2, -2, none, none⟩

/-- A degenerate pooled effect matching `esFlat`. -/
noncomputable def pooledFlat : PooledEffect :=
  ⟨-2, 0, -2, -2, 0, 1, 0, none, 0, 0, PoolingMethod.fixed, 1⟩

/-- Counterexample to C9 as stated: with every effect identical and all CI
bounds equal to -2 (zero-width CIs), the computed linear limits are both
-2.2, so `x_max < max ci_upper` (the upper bound is not contained) and
`x_min = x_max` (the limits are degenerate, no clamping happens). -/
theorem forest_axis_limits_cex :
    maxUpperBound [esFlat] pooledFlat = -2 ∧
    (forestXLimits [esFlat] pooledFlat EffectMeasure.MD).2 <
      maxUpperBound [esFlat] pooledFlat ∧
    (forestXLimits [esFlat] pooledFlat EffectMeasure.MD).1 =
      (forestXLimits [esFlat] pooledFlat EffectMeasure.MD).2 := by
  have hmin : minLowerBound [esFlat] pooledFlat = -2 := by
    simp [minLowerBound, esFlat, pooledFlat]
  have hmax : maxUpperBound [esFlat] pooledFlat = -2 := by
    simp [maxUpperBound, esFlat, pooledFlat]
  refine ⟨hmax, ?_, ?_⟩
  · show maxUpperBound [esFlat] pooledFlat * 1.1 < maxUpperBound [esFlat] pooledFlat
    rw [hmax]
    norm_num
  · show (if minLowerBound [esFlat] pooledFlat < 0 then minLowerBound [esFlat] pooledFlat * 1.1
      else minLowerBound [esFlat] pooledFlat * 0.9) = maxUpperBound [esFlat] pooledFlat * 1.1
    rw [hmin, hmax, if_pos (by norm_num : (-2 : ℝ) < 0)]

/-- A concrete pooled effect used by witnesses. -/
noncomputable def pooledA : PooledEffect :=
  ⟨0.55, 0.08, 0.39, 0.71, 6.9, 0, 0, none, 1, 1, PoolingMethod.fixed, 2⟩

/-- Witness for C9 (amended): concrete limits on linear and log scales. -/
theorem forest_axis_limits_contain_check :
    ((forestXLimits [esA] pooledA EffectMeasure.MD).1 ≤ minLowerBound [esA] pooledA ∧
      maxUpperBound [esA] pooledA ≤ (forestXLimits [esA] pooledA EffectMeasure.MD).2) ∧
    ((forestXLimits [esA] pooledA EffectMeasure.OR).1 ≤ minLowerBound [esA] pooledA ∧
      maxUpperBound [esA] pooledA ≤ (forestXLimits [esA] pooledA EffectMeasure.OR).2) := by
  have hmin : minLowerBound [esA] pooledA = min (0.3 : ℝ) (0.39 : ℝ) := by
    simp [minLowerBound, esA, pooledA]
  have hmax : maxUpperBound [esA] pooledA = max (0.7 : ℝ) (0.71 : ℝ) := by
    simp [maxUpperBound, esA, pooledA]
  have h1 := (forest_axis_limits_contain.2.1 [esA] pooledA EffectMeasure.MD (Or.inl rfl))
  have h2 := (forest_axis_limits_contain.2.2 [esA] pooledA EffectMeasure.OR (Or.inl rfl))
  have hmaxpos : 0 ≤ maxUpperBound [esA] pooledA := by
    rw [hmax]
    norm_num [le_max_iff]
  have hminpos : (0.01 : ℝ) ≤ minLowerBound [esA] pooledA := by
    rw [hmin]
    norm_num [le_min_iff]
  exact ⟨⟨h1.1, h1.2 hmaxpos⟩, ⟨h2.1 hminpos, h2.2 hmaxpos⟩⟩

/-- The q statistic field of the fixed pass. -/
theorem fixedCore_q_statistic (effects : List EffectSize) (ls : Bool) :
    (fixedCore effects ls).1.q_statistic = qStat effects ls := rfl

/-- The df field of the fixed pass. -/
theorem fixedCore_df (effects : List EffectSize) (ls : Bool) :
    (fixedCore effects ls).1.df = dfOf effects := rfl

/-- The studies of the heterogeneity scenario: effects 0.2, 0.8, 0.5, SE 0.1. -/
noncomputable def scenA : EffectSize := ⟨1, anon, 0.2, 0.1, 0, 0.4, none, none⟩

/-- Second scenario study. -/
noncomputable def scenB : EffectSize := ⟨2, anon, 0.8, 0.1, 0.6, 1, none, none⟩

/-- Third scenario study. -/
noncomputable def scenC : EffectSize := ⟨3, anon, 0.5, 0.1, 0.3, 0.7, none, none⟩

/-- The heterogeneity scenario list. -/
noncomputable def scen : List EffectSize := [scenA, scenB, scenC]

/-- Claim C3 (amended): for linear pooling (log_scale = false), whenever
`tau^2 > 0` the random-effects CI width is ≥ the fixed-effects CI width from
the same inputs; and for the scenario `effects = [0.2, 0.8, 0.5]`, all
`se = 0.1`, `tau^2 > 0` holds and the random CI is strictly wider. -/
theorem random_ci_wider_linear :
    (∀ (effects : List EffectSize), effects ≠ [] → (∀ e ∈ effects, 0 < e.se) →
      0 < tauSquared effects false →
      (fixedCore effects false).1.ci_upper - (fixedCore effects false).1.ci_lower ≤
        (randomCore effects false).1.ci_upper - (randomCore effects false).1.ci_lower) ∧
    (0 < tauSquared scen false ∧
      (fixedCore scen false).1.ci_upper - (fixedCore scen false).1.ci_lower <
        (randomCore scen false).1.ci_upper - (randomCore scen false).1.ci_lower) := by
  have hW : feWeights scen = [100, 100, 100] := by
    norm_num [feWeights, scen, scenA, scenB, scenC]
  have hT : totalFeWeight scen = 300 := by
    rw [totalFeWeight, hW]
    norm_num
  have hV : effectValues scen false = [0.2, 0.8, 0.5] := by
    simp [effectValues, scen, scenA, scenB, scenC]
  have hP : fixedPooled scen false = 0.5 := by
    rw [fixedPooled, hW, hV, hT]
    norm_num
  have hQ : qStat scen false = 18 := by
    rw [qStat, hW, hV, hP]
    norm_num
  have hC : cValue scen = 200 := by
    rw [cValue, hT, hW]
    norm_num
  have hTau : tauSquared scen false = 0.08 := by
    rw [tauSquared, fixedCore_q_statistic, fixedCore_df, hC, hQ]
    rw [if_pos (by norm_num : (0 : ℝ) < 200)]
    rw [show (dfOf scen : ℝ) = 2 by norm_num [dfOf, scen]]
    rw [max_eq_right (by norm_num)]
    norm_num
  have hRW : reWeights scen false = [100/9, 100/9, 100/9] := by
    rw [reWeights, hTau]
    norm_num [scen, scenA, scenB, scenC]
  have hTR : totalReWeight scen false = 100/3 := by
    rw [totalReWeight, hRW]
    norm_num
  constructor
  · intro effects hne hse _htau
    have hTRpos := totalReWeight_pos effects false hne hse
    have hsum : totalReWeight effects false ≤ totalFeWeight effects := by
      unfold totalReWeight totalFeWeight reWeights feWeights
      apply List.sum_le_sum
      intro e he
      have h1 := hse e he
      have h2 := tauSquared_nonneg effects false
      apply one_div_le_one_div_of_le (by positivity)
      linarith
    have hdiv : 1 / totalFeWeight effects ≤ 1 / totalReWeight effects false :=
      one_div_le_one_div_of_le hTRpos hsum
    have hle : fixedSe effects ≤ randomSe effects false := by
      unfold fixedSe randomSe
      exact Real.sqrt_le_sqrt hdiv
    show (fixedPooled effects false + 1.96 * fixedSe effects) -
        (fixedPooled effects false - 1.96 * fixedSe effects) ≤
      (randomPooled effects false + 1.96 * randomSe effects false) -
        (randomPooled effects false - 1.96 * randomSe effects false)
    linarith
  · refine ⟨by rw [hTau]; norm_num, ?_⟩
    have hFS : fixedSe scen = Real.sqrt (1/300) := by
      rw [fixedSe, hT]
    have hRS : randomSe scen false = Real.sqrt (3/100) := by
      rw [randomSe, hTR]
      norm_num
    have hlt : fixedSe scen < randomSe scen false := by
      rw [hFS, hRS]
      exact Real.sqrt_lt_sqrt (by norm_num) (by norm_num)
    show (fixedPooled scen false + 1.96 * fixedSe scen) -
        (fixedPooled scen false - 1.96 * fixedSe scen) <
      (randomPooled scen false + 1.96 * randomSe scen false) -
        (randomPooled scen false - 1.96 * randomSe scen false)
    linarith

/-- Witness for C3 (amended): the general linear bound applied to the
scenario studies, with `tau^2 > 0` supplied by the scenario conjunct. -/
theorem random_ci_wider_linear_check :
    (fixedCore scen false).1.ci_upper - (fixedCore scen false).1.ci_lower ≤
      (randomCore scen false).1.ci_upper - (randomCore scen false).1.ci_lower := by
  have hse : ∀ e ∈ scen, 0 < e.se := by
    intro e he
    simp only [scen, List.mem_cons, List.not_mem_nil, or_false] at he
    rcases he with rfl | rfl | rfl <;>
      (show (0 : ℝ) < (0.1 : ℝ); norm_num)
  exact random_ci_wider_linear.1 scen (by simp [scen]) hse random_ci_wider_linear.2.1

/-- Quadratic lower bound on the exponential, inverted: for `x ≥ 0`,
`exp(-x) ≤ 1/(1 + x/2)^2`. -/
theorem exp_neg_le_inv_quad (x : ℝ) (hx : 0 ≤ x) :
    Real.exp (-x) ≤ 1 / (1 + x / 2) ^ 2 := by
  have h1 : 1 + x / 2 ≤ Real.exp (x / 2) := by
    have := Real.add_one_le_exp (x / 2)
    linarith
  have hp : (0 : ℝ) < 1 + x / 2 := by linarith
  have h2 : (1 + x / 2) ^ 2 ≤ Real.exp (x / 2) ^ 2 := by
    have := Real.exp_pos (x / 2)
    nlinarith
  have h3 : Real.exp (x / 2) ^ 2 = Real.exp x := by
    rw [sq, ← Real.exp_add]
    norm_num
  rw [Real.exp_neg, ← one_div]
  exact one_div_le_one_div_of_le (by positivity) (by rw [← h3]; exact h2)

/-- Sum-of-exponentials bound used by the C3 counterexample:
`exp a + exp b ≤ exp c` follows from the rational quadratic bound. -/
theorem exp_add_le_of_quad (a b c : ℝ) (ha : 0 ≤ c - a) (hb : 0 ≤ c - b)
    (h : 1 / (1 + (c - a) / 2) ^ 2 + 1 / (1 + (c - b) / 2) ^ 2 ≤ 1) :
    Real.exp a + Real.exp b ≤ Real.exp c := by
  have h1 := exp_neg_le_inv_quad (c - a) ha
  have h2 := exp_neg_le_inv_quad (c - b) hb
  have e1 : Real.exp a = Real.exp c * Real.exp (-(c - a)) := by
    rw [← Real.exp_add]
    ring_nf
  have e2 : Real.exp b = Real.exp c * Real.exp (-(c - b)) := by
    rw [← Real.exp_add]
    ring_nf
  have hc := Real.exp_pos c
  calc Real.exp a + Real.exp b
      = Real.exp c * (Real.exp (-(c - a)) + Real.exp (-(c - b))) := by
        rw [e1, e2]
        ring
    _ ≤ Real.exp c * 1 := by
        apply mul_le_mul_of_nonneg_left _ (le_of_lt hc)
        calc Real.exp (-(c - a)) + Real.exp (-(c - b))
            ≤ 1 / (1 + (c - a) / 2) ^ 2 + 1 / (1 + (c - b) / 2) ^ 2 := add_le_add h1 h2
          _ ≤ 1 := h
    _ = Real.exp c := mul_one _

/-- First study of the C3 counterexample: natural effect exp(-8), log SE 3/2. -/
noncomputable def cesA : EffectSize := ⟨1, anon, Real.exp (-8), 3/2, 0, 0, none, none⟩

/-- Second study of the C3 counterexample: natural effect exp(8), log SE 1/4. -/
noncomputable def cesB : EffectSize := ⟨2, anon, Real.exp 8, 1/4, 0, 0, none, none⟩

/-- Third study of the C3 counterexample: natural effect exp(8), log SE 1/4. -/
noncomputable def cesC : EffectSize := ⟨3, anon, Real.exp 8, 1/4, 0, 0, none, none⟩

/-- The C3 counterexample study list. -/
noncomputable def ces : List EffectSize := [cesA, cesB, cesC]

/-- Counterexample to C3 as stated: pooling `ces` on the log scale (as done
for OR/RR) yields `tau^2 = 4023/608 > 0`, yet the random-effects CI on the
natural scale is strictly narrower than the fixed-effects CI: the random
pooled log-effect (about 3.62) sits far below the fixed one (about 7.78), and
the exponential scaling shrinks the random interval below the fixed one. -/
theorem random_ci_wider_cex :
    0 < tauSquared ces true ∧
    (randomCore ces true).1.ci_upper - (randomCore ces true).1.ci_lower <
      (fixedCore ces true).1.ci_upper - (fixedCore ces true).1.ci_lower := by
  have hW : feWeights ces = [4/9, 16, 16] := by
    norm_num [feWeights, ces, cesA, cesB, cesC]
  have hT : totalFeWeight ces = 292/9 := by
    rw [totalFeWeight, hW]
    norm_num
  have hV : effectValues ces true = [-8, 8, 8] := by
    simp [effectValues, ces, cesA, cesB, cesC, Real.exp_pos, Real.log_exp]
  have hP : fixedPooled ces true = 568/73 := by
    rw [fixedPooled, hW, hV, hT]
    norm_num
  have hQ : qStat ces true = 598016/5329 := by
    rw [qStat, hW, hV, hP]
    norm_num
  have hC : cValue ces = 1216/73 := by
    rw [cValue, hT, hW]
    norm_num
  have hTau : tauSquared ces true = 4023/608 := by
    rw [tauSquared, fixedCore_q_statistic, fixedCore_df, hC, hQ]
    rw [if_pos (by norm_num : (0 : ℝ) < 1216/73)]
    rw [show (dfOf ces : ℝ) = 2 by norm_num [dfOf, ces]]
    rw [max_eq_right (by norm_num)]
    norm_num
  have hRW : reWeights ces true = [608/5391, 608/4061, 608/4061] := by
    rw [reWeights, hTau]
    norm_num [ces, cesA, cesB, cesC]
  have hTR : totalReWeight ces true = 9024544/21892851 := by
    rw [totalReWeight, hRW]
    norm_num
  have hPR : randomPooled ces true = 53768/14843 := by
    rw [randomPooled, hRW, hV, hTR]
    norm_num
  have hFS : fixedSe ces = Real.sqrt (9/292) := by
    rw [fixedSe, hT]
    norm_num
  have hRS : randomSe ces true = Real.sqrt (21892851/9024544) := by
    rw [randomSe, hTR]
    norm_num
  have hsF : (4389/25000 : ℝ) ≤ fixedSe ces := by
    rw [hFS]
    calc (4389/25000 : ℝ) = Real.sqrt ((4389/25000) ^ 2) :=
          (Real.sqrt_sq (by norm_num)).symm
      _ ≤ Real.sqrt (9/292) := Real.sqrt_le_sqrt (by norm_num)
  have hsR : randomSe ces true ≤ 1947/1250 := by
    rw [hRS]
    calc Real.sqrt (21892851/9024544) ≤ Real.sqrt ((1947/1250) ^ 2) :=
          Real.sqrt_le_sqrt (by norm_num)
      _ = 1947/1250 := Real.sqrt_sq (by norm_num)
  have hq1 : randomPooled ces true + 1.96 * randomSe ces true ≤
      53768/14843 + 1.96 * (1947/1250) := by
    rw [hPR]
    nlinarith
  have hq2 : fixedPooled ces true - 1.96 * fixedSe ces ≤
      568/73 - 1.96 * (4389/25000) := by
    rw [hP]
    nlinarith
  have hq3 : (568/73 + 1.96 * (4389/25000) : ℝ) ≤
      fixedPooled ces true + 1.96 * fixedSe ces := by
    rw [hP]
    nlinarith
  have hkey : Real.exp (53768/14843 + 1.96 * (1947/1250)) +
      Real.exp (568/73 - 1.96 * (4389/25000)) ≤
      Real.exp (568/73 + 1.96 * (4389/25000)) := by
    apply exp_add_le_of_quad
    · norm_num
    · norm_num
    · norm_num
  refine ⟨by rw [hTau]; norm_num, ?_⟩
  show Real.exp (randomPooled ces true + 1.96 * randomSe ces true) -
      Real.exp (randomPooled ces true - 1.96 * randomSe ces true) <
    Real.exp (fixedPooled ces true + 1.96 * fixedSe ces) -
      Real.exp (fixedPooled ces true - 1.96 * fixedSe ces)
  have s1 : Real.exp (randomPooled ces true + 1.96 * randomSe ces true) -
      Real.exp (randomPooled ces true - 1.96 * randomSe ces true) <
      Real.exp (randomPooled ces true + 1.96 * randomSe ces true) :=
    sub_lt_self _ (Real.exp_pos _)
  have s2 : Real.exp (randomPooled ces true + 1.96 * randomSe ces true) ≤
      Real.exp (53768/14843 + 1.96 * (1947/1250)) := Real.exp_le_exp.mpr hq1
  have s3 : Real.exp (568/73 + 1.96 * (4389/25000) : ℝ) ≤
      Real.exp (fixedPooled ces true + 1.96 * fixedSe ces) := Real.exp_le_exp.mpr hq3
  have s4 : Real.exp (fixedPooled ces true - 1.96 * fixedSe ces) ≤
      Real.exp (568/73 - 1.96 * (4389/25000)) := Real.exp_le_exp.mpr hq2
  linarith

end AutomatedSR
